import Mathlib

/-!
Verification of the incremental change-detection core of the
`guru-truth-system` repository (`agent/PHASE 1/1_read_sources.py`).

The Python module is shallowly embedded below:

* Python strings are `String` (identifiers, names) or `List Char`
  (file/commit contents, so that slicing `[:5000]` is `List.take`);
* Python dicts that the code builds key-by-key (`file_checksums`,
  `git_commit_hashes`) are association lists with first-match lookup and
  replace-on-insert, matching `dict.__getitem__` / `dict.__setitem__`;
* the MD5 digest (`hashlib.md5(...).hexdigest()`, an external library
  call) is a parameter `md5 : List Char → String` of every operation
  that hashes content — every theorem holds for an arbitrary digest
  function, and concrete witnesses instantiate it;
* the filesystem visible to `Path(".").glob` is an explicit snapshot
  (`Env.files`), git repositories visible to `Repo(path)` are an
  explicit map from path to a newest-first linear commit list
  (`Env.repos`), and `datetime.now()` is `Env.now` (seconds);
* exceptions are modelled by the `Option`/`Except` structure of the
  definitions: operations whose Python bodies catch every exception
  internally are total functions, and `json.load` of the persisted
  state file (which has no handler around it) is an `Except`.
-/

namespace GuruTruth

/-! ## Kernel-friendly string helpers

`Path.glob`, `str.endswith`, `str.replace`, `str.strip` and
`pathlib.PurePath.name` are re-implemented over `List Char` so that all
definitions evaluate by `decide` on concrete inputs. -/

/-- All suffixes of a character list, longest first. -/
def suffixesOf : List Char → List (List Char)
  | [] => [[]]
  | c :: ts => (c :: ts) :: suffixesOf ts

/-- Single-segment glob matching: a literal character matches itself and
a star matches any (possibly empty) run of characters, as in `fnmatch`
restricted to the `*` wildcard (the only wildcard the repository's
configurations use). -/
def matchSeg : List Char → List Char → Bool
  | [], t => t.isEmpty
  | p :: ps, t =>
    if p = '*' then (suffixesOf t).any (matchSeg ps)
    else
      match t with
      | [] => false
      | c :: ts => p == c && matchSeg ps ts

/-- Split a character list on the path separator, like `str.split("/")`:
`splitSegs "a/b" = [[a],[b]]`, `splitSegs "" = [[]]`. -/
def splitSegs : List Char → List (List Char)
  | [] => [[]]
  | c :: cs =>
    let rest := splitSegs cs
    if c = '/' then [] :: rest
    else
      match rest with
      | [] => [[c]]
      | s :: ss => (c :: s) :: ss

/-- `Path(".").glob(pattern)` membership test: the pattern and the path
are split into `/`-separated segments, which must agree in number and
match segment-wise (`*` does not cross a separator, as with
`pathlib.Path.glob`). -/
def globMatch (pat path : String) : Bool :=
  let ps := splitSegs pat.toList
  let qs := splitSegs path.toList
  ps.length == qs.length && (ps.zip qs).all fun pr => matchSeg pr.1 pr.2

/-- `pattern.replace("*", "")`: drop every star. -/
def removeStars (l : List Char) : List Char := l.filter (fun c => c != '*')

/-- `IncrementalChangeDetector._should_process_file`: an empty pattern
list accepts everything, otherwise the path must end with some pattern
stripped of its stars (`file_path.endswith(pattern.replace("*", ""))`). -/
def shouldProcessFile (filePath : String) (patterns : List String) : Bool :=
  if patterns.isEmpty then true
  else patterns.any fun pat => (removeStars pat.toList).isSuffixOf filePath.toList

/-- `pathlib.PurePath.name`: the final `/`-separated component. -/
def lastSeg (p : String) : String := ((splitSegs p.toList).getLastD []).asString

/-- A Python whitespace character, as far as `str.strip()` with the
repository's commit messages is concerned. -/
def isSpaceChar (c : Char) : Bool := c == ' ' || c == '\n' || c == '\t' || c == '\r'

/-- `str.strip()`: drop leading and trailing whitespace. -/
def stripStr (s : String) : String :=
  (((s.toList.dropWhile isSpaceChar).reverse.dropWhile isSpaceChar).reverse).asString

/-! ## Python dicts as association lists -/

/-- Dictionary lookup (`d.get(k)` / `k in d`): first matching key wins;
inserts below keep keys unique so this is exactly `dict` access. -/
def alookup {α : Type} (k : String) : List (String × α) → Option α
  | [] => none
  | (k', v) :: rest => if k' = k then some v else alookup k rest

/-- Dictionary insert (`d[k] = v`): replace the binding if the key is
present, append otherwise. -/
def dictInsert {α : Type} (k : String) (v : α) : List (String × α) → List (String × α)
  | [] => [(k, v)]
  | (k', v') :: rest =>
    if k' = k then (k, v) :: rest else (k', v') :: dictInsert k v rest

/-! ## Data model -/

/-- One file of the observed filesystem snapshot: relative path as the
glob produces it, decoded text content, and `st_mtime` in seconds. -/
structure FileEntry where
  path : String
  content : List Char
  mtime : Nat
deriving DecidableEq, Repr

/-- One commit as `gitpython` presents it: `hexsha`, raw `message`,
`author` rendered to a string, `committed_datetime` in seconds, and the
files touched by the commit (`commit.stats.files`) paired with their
content at that commit (`repo.git.show(f"{hexsha}:{path}")`). -/
structure Commit where
  hexsha : String
  message : String
  author : String
  committedAt : Nat
  files : List (String × List Char)
deriving DecidableEq, Repr

/-- A git repository: its log as a newest-first linear commit list, so
the head commit is the first element. -/
structure GitRepo where
  commits : List Commit
deriving DecidableEq, Repr

/-- The external world one run observes: the filesystem snapshot, the
repositories reachable by path, and the wall clock. -/
structure Env where
  files : List FileEntry
  repos : List (String × GitRepo)
  now : Nat

/-- The `config` dict of a `DataSourceConfig`, with the defaults the code
reads out of it (`config.get("path", ".")`, `config.get("file_patterns",
[])`, `config.get("paths", [])`). -/
structure SourceParams where
  path : String := "."
  branches : List String := []
  file_patterns : List String := []
  paths : List String := []
  recursive : Bool := true
deriving DecidableEq, Repr

/-- `DataSourceConfig` (dataclass): name, kind tag, parameters, enabled. -/
structure DataSourceConfig where
  name : String
  type : String
  config : SourceParams
  enabled : Bool := true
deriving DecidableEq, Repr

/-- `ChangeDetection` (dataclass).  `metadata : Dict[str, Any]` is an
association list with every value rendered to a string (the only reads
the program performs on it are string-valued lookups). -/
structure ChangeDetection where
  source_name : String
  source_type : String
  change_type : String
  timestamp : Nat
  content : List Char
  metadata : List (String × String)
  evidence_id : String
deriving DecidableEq, Repr

/-- The persisted run state (`change_detector_state.json`). -/
structure RunState where
  last_run_timestamp : Option Nat := none
  file_checksums : List (String × String) := []
  git_commit_hashes : List (String × String) := []
  processed_changes : List String := []
deriving DecidableEq, Repr

/-- The fresh state `load_last_run_state` builds when no state file
exists. -/
def emptyRunState : RunState := {}

/-- The on-disk condition of the persisted state file: absent, present
but not valid JSON, or present and parsed. -/
inductive StateFile where
  | absent : StateFile
  | malformed : StateFile
  | wellFormed : RunState → StateFile
deriving DecidableEq, Repr

/-- The error `json.load` raises on malformed input
(`json.JSONDecodeError`), which nothing in the module catches. -/
inductive JsonError where
  | decodeError : JsonError
deriving DecidableEq, Repr

/-- `IncrementalChangeDetector.load_last_run_state`: absent file gives
the empty defaults, a parsable file gives its contents, and a malformed
file lets the decode error propagate (there is no handler). -/
def loadLastRunState : StateFile → Except JsonError RunState
  | .absent => .ok emptyRunState
  | .malformed => .error .decodeError
  | .wellFormed st => .ok st

/-! ## Source adapters -/

/-- The body of the per-file loop of `_detect_file_changes`: compute the
MD5 of the content, look the path up in `last_run_state["file_checksums"]`,
and emit an `added` record (path unseen), a `modified` record (stored
checksum differs), or nothing (stored checksum equal). -/
def classifyFileEntry (md5 : List Char → String) (st : RunState)
    (src : DataSourceConfig) (f : FileEntry) : Option ChangeDetection :=
  let checksum := md5 f.content
  let emit : String → Option ChangeDetection := fun ct =>
    some { source_name := src.name
           source_type := "file_modification"
           change_type := ct
           timestamp := f.mtime
           content := f.content.take 5000
           metadata := [("file_path", f.path),
                        ("file_size", toString f.content.length),
                        ("checksum", checksum)]
           evidence_id := "file_" ++ src.name ++ "_" ++ checksum ++ "_" ++ lastSeg f.path }
  match alookup f.path st.file_checksums with
  | none => emit "added"
  | some old => if old = checksum then none else emit "modified"

/-- `IncrementalChangeDetector._detect_file_changes`: for each configured
glob pattern, for each matching file of the snapshot, classify and
collect.  (The method also writes `current_checksums` under the key
`file_checksums_{name}` of the in-memory state; that key is never read
by any other method, so the dead store is not modelled.) -/
def detectFileChanges (md5 : List Char → String) (files : List FileEntry)
    (st : RunState) (src : DataSourceConfig) : List ChangeDetection :=
  src.config.paths.flatMap fun pat =>
    (files.filter fun f => globMatch pat f.path).filterMap
      (classifyFileEntry md5 st src)

/-- The commit range `_detect_git_changes` enumerates: with a non-empty
stored hash, `iter_commits(f"{hash}..HEAD")` — the commits strictly
newer than the stored one on a linear history, and the empty list when
the stored revision is unknown to the repository (the `GitCommandError`
is caught by the method's handler); with no stored hash (or a falsy
empty one), `iter_commits(since=now - 24h)`. -/
def commitsInRange (repo : GitRepo) (lastHash : Option String) (now : Nat) :
    List Commit :=
  let window := repo.commits.filter fun c => now - 86400 ≤ c.committedAt
  match lastHash with
  | some h =>
    if h = "" then window
    else if repo.commits.any fun c => c.hexsha == h then
      repo.commits.takeWhile fun c => c.hexsha != h
    else []
  | none => window

/-- `IncrementalChangeDetector._detect_git_changes`: open the repository
at the configured path (a failing `Repo(...)` is caught and yields no
changes), enumerate the commit range, and for every file of every commit
that passes the extension filter emit one record — with `change_type`
hard-coded to `"modified"`. -/
def detectGitChanges (env : Env) (st : RunState) (src : DataSourceConfig) :
    List ChangeDetection :=
  match alookup src.config.path env.repos with
  | none => []
  | some repo =>
    let lastHash := alookup src.name st.git_commit_hashes
    (commitsInRange repo lastHash env.now).flatMap fun commit =>
      (commit.files.filter fun f => shouldProcessFile f.1 src.config.file_patterns).map
        fun f =>
          { source_name := src.name
            source_type := "github_commit"
            change_type := "modified"
            timestamp := commit.committedAt
            content := f.2.take 5000
            metadata := [("commit_hash", commit.hexsha),
                         ("commit_message", stripStr commit.message),
                         ("author", commit.author),
                         ("file_path", f.1)]
            evidence_id := "git_" ++ src.name ++ "_" ++ commit.hexsha ++ "_" ++ f.1 }

/-- Dispatch on `source.type` inside `detect_all_changes`: the two stub
adapters (`google_docs`, `slack`) return no changes, and an unknown type
is skipped. -/
def runSource (md5 : List Char → String) (env : Env) (st : RunState)
    (src : DataSourceConfig) : List ChangeDetection :=
  if src.type = "github" then detectGitChanges env st src
  else if src.type = "local_files" then detectFileChanges md5 env.files st src
  else []

/-- `IncrementalChangeDetector.detect_all_changes`: every enabled source
is processed in order and its changes appended; a disabled source is
skipped.  (The per-source `try/except` of the Python loop never fires in
this model because each adapter already catches its own failures
internally and is total.) -/
def detectAllChanges (md5 : List Char → String) (env : Env) (st : RunState)
    (cfg : List DataSourceConfig) : List ChangeDetection :=
  cfg.flatMap fun src => if src.enabled then runSource md5 env st src else []

/-! ## State persistence -/

/-- `IncrementalChangeDetector._calculate_current_file_checksums`: one
flat dict over every `local_files` source (enabled or not), every
pattern, every matching file, keyed by path. -/
def calcCurrentFileChecksums (md5 : List Char → String) (files : List FileEntry)
    (cfg : List DataSourceConfig) : List (String × String) :=
  cfg.foldl
    (fun acc src =>
      if src.type = "local_files" then
        src.config.paths.foldl
          (fun acc2 pat =>
            (files.filter fun f => globMatch pat f.path).foldl
              (fun acc3 f => dictInsert f.path (md5 f.content) acc3) acc2)
          acc
      else acc)
    []

/-- One iteration of the `_get_current_git_commits` loop: a `github`
source whose repository opens (`Repo(...)`) and has a head commit
records `repo.head.commit.hexsha` under its name; any failure is
swallowed (`except: pass`) and any other source kind is skipped. -/
def gitCommitStep (env : Env) (acc : List (String × String))
    (src : DataSourceConfig) : List (String × String) :=
  if src.type = "github" then
    match alookup src.config.path env.repos with
    | none => acc
    | some repo =>
      match repo.commits.head? with
      | none => acc
      | some c => dictInsert src.name c.hexsha acc
  else acc

/-- `IncrementalChangeDetector._get_current_git_commits`: the HEAD hash
of every `github` source whose repository opens and has a head commit. -/
def getCurrentGitCommits (env : Env) (cfg : List DataSourceConfig) :
    List (String × String) :=
  cfg.foldl (gitCommitStep env) []

/-- The hash `_get_current_git_commits` would record for one source:
the head commit of the repository at its configured path, if any. -/
def gitHeadHash (env : Env) (src : DataSourceConfig) : Option String :=
  match alookup src.config.path env.repos with
  | none => none
  | some repo => repo.commits.head?.map (·.hexsha)

/-- `IncrementalChangeDetector.save_current_state`: the state written to
disk — fresh checksums and HEAD hashes recomputed from the live
environment, plus the evidence ids of the detected changes. -/
def saveCurrentState (md5 : List Char → String) (env : Env)
    (cfg : List DataSourceConfig) (detected : List ChangeDetection) : RunState :=
  { last_run_timestamp := some env.now
    file_checksums := calcCurrentFileChecksums md5 env.files cfg
    git_commit_hashes := getCurrentGitCommits env cfg
    processed_changes := detected.map (·.evidence_id) }

/-- `main()`: construct the detector (which loads the persisted state —
a decode failure propagates out before any adapter runs), detect, and
either return early with the state file untouched (no changes) or save
the new state.  The result pairs the detected changes handed to the
report generator with the state file as the run leaves it. -/
def mainRun (md5 : List Char → String) (env : Env) (cfg : List DataSourceConfig)
    (sf : StateFile) : Except JsonError (Option (List ChangeDetection) × StateFile) :=
  match loadLastRunState sf with
  | .error e => .error e
  | .ok st =>
    let changes := detectAllChanges md5 env st cfg
    if changes.isEmpty then .ok (none, sf)
    else .ok (some changes, .wellFormed (saveCurrentState md5 env cfg changes))

/-! ## Observation helpers used by the theorems -/

/-- The `file_path` entry of a record's metadata — the item identifier
of a filesystem or git emission. -/
def metaPath (c : ChangeDetection) : Option String := alookup "file_path" c.metadata

/-- The `checksum` entry of a record's metadata (filesystem records). -/
def metaChecksum (c : ChangeDetection) : Option String := alookup "checksum" c.metadata

/-- How many filesystem records of a change list carry the given path. -/
def countFileRecords (p : String) (l : List ChangeDetection) : Nat :=
  l.countP fun c => c.source_type == "file_modification" && metaPath c == some p

/-! ## Concrete fixtures for witnesses and counterexamples

The digest parameter is instantiated with the injective function that
renders the content itself, so distinct contents have distinct
fingerprints and equal contents equal ones — the only properties of MD5
any scenario below relies on. -/

/-- Concrete digest instantiation for witnesses. -/
def idDigest : List Char → String := List.asString

/-- A filesystem source watching markdown files. -/
def wFileSrc : DataSourceConfig :=
  { name := "Docs", type := "local_files", config := { paths := ["*.md"] } }

/-- A git source over the repository at path `r`. -/
def wGitSrc : DataSourceConfig :=
  { name := "Repo", type := "github", config := { path := "r" } }

/-- A world with one markdown file and one single-commit repository. -/
def wEnv : Env :=
  { files := [⟨"a.md", ['h'], 10⟩]
    repos := [("r", ⟨[⟨"c1", "m", "au", 95, [("x.py", ['x'])]⟩]⟩)]
    now := 100 }

/-- Both witness sources together. -/
def wCfg : List DataSourceConfig := [wFileSrc, wGitSrc]

/-- The record the filesystem adapter emits for `a.md` on a first run. -/
def wFileChange : ChangeDetection :=
  { source_name := "Docs", source_type := "file_modification", change_type := "added"
    timestamp := 10, content := ['h']
    metadata := [("file_path", "a.md"), ("file_size", "1"), ("checksum", "h")]
    evidence_id := "file_Docs_h_a.md" }

/-- The record the VCS adapter emits for `x.py` of commit `c1`. -/
def wGitChange : ChangeDetection :=
  { source_name := "Repo", source_type := "github_commit", change_type := "modified"
    timestamp := 95, content := ['x']
    metadata := [("commit_hash", "c1"), ("commit_message", "m"), ("author", "au"),
                 ("file_path", "x.py")]
    evidence_id := "git_Repo_c1_x.py" }

/-- A git source whose repository path does not exist. -/
def badGitSrc : DataSourceConfig :=
  { name := "Ghost", type := "github", config := { path := "missing" } }

/-- A source with one literal pattern and one wildcard pattern, both
matching the same file. -/
def c3Src : DataSourceConfig :=
  { name := "S", type := "local_files", config := { paths := ["a.md", "*.md"] } }

/-- A snapshot with just `a.md`. -/
def c3Env : Env := { files := [⟨"a.md", ['h'], 0⟩], repos := [], now := 0 }

/-- Overlapping patterns over `b.md`. -/
def c4Src : DataSourceConfig :=
  { name := "S", type := "local_files", config := { paths := ["b.md", "*.md"] } }

/-- A snapshot where `b.md` now reads `n`. -/
def c4Env : Env := { files := [⟨"b.md", ['n'], 0⟩], repos := [], now := 0 }

/-- A store remembering `b.md` under the old fingerprint `OLD`. -/
def c4St : RunState := { file_checksums := [("b.md", "OLD")] }

/-- A single-pattern source over `b.md`, for the amended C4 witness. -/
def c4wSrc : DataSourceConfig :=
  { name := "S", type := "local_files", config := { paths := ["b.md"] } }

/-- Two directories holding equal-content files with the same basename. -/
def c6Env : Env :=
  { files := [⟨"docs/a.md", ['h'], 1⟩, ⟨"notes/a.md", ['h'], 2⟩], repos := [], now := 0 }

/-- A source matching both same-basename files. -/
def c6Src : DataSourceConfig :=
  { name := "S", type := "local_files", config := { paths := ["docs/a.md", "notes/a.md"] } }

/-! ## Dictionary lemmas -/

theorem alookup_dictInsert_self {α : Type} (k : String) (v : α) (d : List (String × α)) :
    alookup k (dictInsert k v d) = some v := by
  induction d with
  | nil => simp [dictInsert, alookup]
  | cons kv rest ih =>
    obtain ⟨k', v'⟩ := kv
    by_cases h : k' = k
    · simp [dictInsert, alookup, h]
    · simp [dictInsert, alookup, h, ih]

theorem alookup_dictInsert_ne {α : Type} (k k' : String) (v : α) (d : List (String × α))
    (h : k' ≠ k) : alookup k (dictInsert k' v d) = alookup k d := by
  have h2 : k ≠ k' := Ne.symm h
  induction d with
  | nil => simp [dictInsert, alookup, h]
  | cons kv rest ih =>
    obtain ⟨k₀, v₀⟩ := kv
    by_cases h0 : k₀ = k'
    · subst h0
      simp [dictInsert, alookup, h]
    · by_cases h1 : k₀ = k <;> simp [dictInsert, alookup, h0, h1, h2, ih]

/-! ## Characterizing `calcCurrentFileChecksums`

Every insertion the triple fold performs for a key `p` carries the same
value (the digest of `p`'s content), so the final dictionary holds
`some v` at `p` exactly when some configured pattern of some
`local_files` source matches a snapshot entry with path `p`. -/

theorem alookup_foldIns (md5 : List Char → String) (p v : String)
    (L : List FileEntry) (hv : ∀ g ∈ L, g.path = p → md5 g.content = v)
    (d : List (String × String)) :
    alookup p (L.foldl (fun acc g => dictInsert g.path (md5 g.content) acc) d) =
      if L.any (fun g => g.path == p) then some v else alookup p d := by
  induction L generalizing d with
  | nil => simp
  | cons g L' ih =>
    have hv' : ∀ g' ∈ L', g'.path = p → md5 g'.content = v := fun g' hg' =>
      hv g' (List.mem_cons_of_mem _ hg')
    by_cases hp : g.path = p
    · subst hp
      have hval : md5 g.content = v := hv g (List.mem_cons_self _ _) rfl
      have hins : alookup g.path (dictInsert g.path (md5 g.content) d) = some v := by
        rw [hval]; exact alookup_dictInsert_self _ _ d
      simp only [List.foldl_cons, List.any_cons]
      rw [ih hv' _, hins]
      simp
    · have hins : alookup p (dictInsert g.path (md5 g.content) d) = alookup p d :=
        alookup_dictInsert_ne _ _ _ _ hp
      simp only [List.foldl_cons, List.any_cons]
      rw [ih hv' _, hins]
      have hpb : (g.path == p) = false := by simp [hp]
      simp [hpb]

theorem filter_any_path (files : List FileEntry) (pat p : String) :
    ((files.filter fun f => globMatch pat f.path).any fun g => g.path == p) =
      (globMatch pat p && files.any fun g => g.path == p) := by
  induction files with
  | nil => simp
  | cons f fs ih =>
    by_cases hp : f.path = p
    · subst hp
      by_cases hg : globMatch pat f.path
      · simp [List.filter_cons, hg, ih]
      · simp [List.filter_cons, hg, ih, Bool.eq_false_iff.mpr hg]
    · have hpb : (f.path == p) = false := by simp [hp]
      by_cases hg : globMatch pat f.path <;>
        simp [List.filter_cons, hg, ih, hpb]

theorem alookup_foldPats (md5 : List Char → String) (files : List FileEntry) (p v : String)
    (hv : ∀ g ∈ files, g.path = p → md5 g.content = v)
    (P : List String) (d : List (String × String)) :
    alookup p (P.foldl
        (fun acc2 pat =>
          (files.filter fun f => globMatch pat f.path).foldl
            (fun acc3 f => dictInsert f.path (md5 f.content) acc3) acc2)
        d) =
      if P.any (fun pat => globMatch pat p && files.any fun g => g.path == p) then some v
      else alookup p d := by
  induction P generalizing d with
  | nil => simp
  | cons pat P' ih =>
    have hvf : ∀ g ∈ files.filter fun f => globMatch pat f.path, g.path = p →
        md5 g.content = v := fun g hg => hv g (List.mem_of_mem_filter hg)
    simp only [List.foldl_cons, List.any_cons]
    rw [ih _, alookup_foldIns md5 p v _ hvf d, filter_any_path]
    by_cases h1 : (globMatch pat p && files.any fun g => g.path == p) = true <;>
      simp [h1]

theorem alookup_calc (md5 : List Char → String) (files : List FileEntry) (p v : String)
    (hv : ∀ g ∈ files, g.path = p → md5 g.content = v)
    (cfg : List DataSourceConfig) :
    alookup p (calcCurrentFileChecksums md5 files cfg) =
      if cfg.any (fun src => src.type == "local_files" &&
          src.config.paths.any fun pat => globMatch pat p && files.any fun g => g.path == p)
      then some v else none := by
  suffices h : ∀ d : List (String × String),
      alookup p (cfg.foldl
          (fun acc src =>
            if src.type = "local_files" then
              src.config.paths.foldl
                (fun acc2 pat =>
                  (files.filter fun f => globMatch pat f.path).foldl
                    (fun acc3 f => dictInsert f.path (md5 f.content) acc3) acc2)
                acc
            else acc)
          d) =
        if cfg.any (fun src => src.type == "local_files" &&
            src.config.paths.any fun pat => globMatch pat p && files.any fun g => g.path == p)
        then some v else alookup p d by
    rw [calcCurrentFileChecksums, h []]
    simp [alookup]
  intro d
  induction cfg generalizing d with
  | nil => simp
  | cons src rest ih =>
    simp only [List.foldl_cons, List.any_cons]
    by_cases hT : src.type = "local_files"
    · rw [ih _, if_pos hT, alookup_foldPats md5 files p v hv _ d]
      have hTb : (src.type == "local_files") = true := by simp [hT]
      by_cases h1 : (src.config.paths.any fun pat =>
            globMatch pat p && files.any fun g => g.path == p) = true <;>
        by_cases h2 : (rest.any fun src => src.type == "local_files" &&
            src.config.paths.any fun pat =>
              globMatch pat p && files.any fun g => g.path == p) = true <;>
        simp [hTb, h1, h2]
    · have hTb : (src.type == "local_files") = false := by simp [hT]
      rw [ih _, if_neg hT]
      simp [hTb]

/-! ## Characterizing `getCurrentGitCommits` -/

theorem alookup_mem {α : Type} (k : String) (l : List (String × α)) (v : α)
    (h : alookup k l = some v) : (k, v) ∈ l := by
  induction l with
  | nil => simp [alookup] at h
  | cons kv rest ih =>
    obtain ⟨k', v'⟩ := kv
    by_cases hk : k' = k
    · subst hk
      simp [alookup] at h
      simp [h]
    · simp [alookup, hk] at h
      exact List.mem_cons_of_mem _ (ih h)

theorem alookup_gitCommitStep_ne (env : Env) (acc : List (String × String))
    (src : DataSourceConfig) (n : String) (h : src.name ≠ n) :
    alookup n (gitCommitStep env acc src) = alookup n acc := by
  unfold gitCommitStep
  by_cases hT : src.type = "github"
  · rw [if_pos hT]
    cases alookup src.config.path env.repos with
    | none => rfl
    | some repo =>
      dsimp only
      cases repo.commits.head? with
      | none => rfl
      | some c => exact alookup_dictInsert_ne _ _ _ _ h
  · rw [if_neg hT]

theorem alookup_gitCommitStep_self (env : Env) (acc : List (String × String))
    (src : DataSourceConfig) (hT : src.type = "github") :
    alookup src.name (gitCommitStep env acc src) =
      match gitHeadHash env src with
      | some hex => some hex
      | none => alookup src.name acc := by
  unfold gitCommitStep gitHeadHash
  rw [if_pos hT]
  cases alookup src.config.path env.repos with
  | none => rfl
  | some repo =>
    dsimp only
    cases repo.commits.head? with
    | none => rfl
    | some c => simp [alookup_dictInsert_self]

theorem gitCommitStep_not_github (env : Env) (acc : List (String × String))
    (src : DataSourceConfig) (h : ¬ src.type = "github") :
    gitCommitStep env acc src = acc := by
  unfold gitCommitStep
  rw [if_neg h]

theorem alookup_gitFold_no (env : Env) (cfg : List DataSourceConfig) (n : String)
    (h : ∀ src ∈ cfg, src.type = "github" → src.name ≠ n) (d : List (String × String)) :
    alookup n (cfg.foldl (gitCommitStep env) d) = alookup n d := by
  induction cfg generalizing d with
  | nil => rfl
  | cons s rest ih =>
    rw [List.foldl_cons, ih (fun src hs => h src (List.mem_cons_of_mem _ hs)) _]
    by_cases hsT : s.type = "github"
    · exact alookup_gitCommitStep_ne env d s n (h s (List.mem_cons_self _ _) hsT)
    · rw [gitCommitStep_not_github env d s hsT]

theorem alookup_getCurrentGitCommits (env : Env) (src : DataSourceConfig)
    (hT : src.type = "github") :
    ∀ cfg : List DataSourceConfig, src ∈ cfg →
      ((cfg.filter fun s => s.type == "github").map (·.name)).Nodup →
      ∀ d : List (String × String), alookup src.name d = none →
      alookup src.name (cfg.foldl (gitCommitStep env) d) = gitHeadHash env src := by
  intro cfg
  induction cfg with
  | nil => intro h; cases h
  | cons s rest ih =>
    intro hmem hnames d hd
    rcases List.mem_cons.mp hmem with heq | hrest
    · subst heq
      have hfil : (src.type == "github") = true := by simp [hT]
      rw [List.filter_cons, if_pos hfil, List.map_cons, List.nodup_cons] at hnames
      have hrestno : ∀ t ∈ rest, t.type = "github" → t.name ≠ src.name := by
        intro t ht htT heqn
        exact hnames.1 (List.mem_map.mpr ⟨t, List.mem_filter.mpr ⟨ht, by simp [htT]⟩, heqn⟩)
      rw [List.foldl_cons, alookup_gitFold_no env rest src.name hrestno _,
        alookup_gitCommitStep_self env d src hT]
      cases hh : gitHeadHash env src with
      | some hex => rfl
      | none => exact hd
    · rw [List.foldl_cons]
      by_cases hsT : s.type = "github"
      · have hsfil : (s.type == "github") = true := by simp [hsT]
        rw [List.filter_cons, if_pos hsfil, List.map_cons, List.nodup_cons] at hnames
        have hne : s.name ≠ src.name := by
          intro heqn
          exact hnames.1 (heqn ▸ List.mem_map.mpr
            ⟨src, List.mem_filter.mpr ⟨hrest, by simp [hT]⟩, rfl⟩)
        have hd' : alookup src.name (gitCommitStep env d s) = none := by
          rw [alookup_gitCommitStep_ne env d s _ hne]; exact hd
        exact ih hrest hnames.2 _ hd'
      · have hsfil : (s.type == "github") = false := by simp [hsT]
        rw [List.filter_cons, if_neg (by simp [hsfil])] at hnames
        rw [gitCommitStep_not_github env d s hsT]
        exact ih hrest hnames _ hd

/-! ## C2: a second run over an unchanged world emits nothing -/

/-- C2.  For every fixed filesystem snapshot and fixed persisted store
state, running reconciliation once, persisting the store
(`save_current_state`), and then running reconciliation again over the
unchanged snapshot emits zero `ChangeRecord`s on the second run.  The
saved state is recomputed from the live environment, so the second run's
result does not depend on the first run's detected list at all; the
well-formedness hypotheses say that snapshot paths are distinct (a
filesystem property), that no two `github` sources share a name (the
data model keys stored revisions by source name), and that commit hashes
are non-empty (true of every real hexsha; the code tests the stored hash
for truthiness). -/
theorem second_run_emits_nothing (md5 : List Char → String) (env : Env)
    (cfg : List DataSourceConfig) (prior : List ChangeDetection)
    (hpaths : (env.files.map FileEntry.path).Nodup)
    (hnames : ((cfg.filter fun s => s.type == "github").map (·.name)).Nodup)
    (hhex : ∀ pr ∈ env.repos, ∀ c ∈ pr.2.commits, c.hexsha ≠ "") :
    detectAllChanges md5 env (saveCurrentState md5 env cfg prior) cfg = [] := by
  unfold detectAllChanges
  rw [List.flatMap_eq_nil_iff]
  intro src hsrc
  by_cases hen : src.enabled
  case neg => simp [hen]
  rw [if_pos hen]
  unfold runSource
  by_cases hg : src.type = "github"
  · rw [if_pos hg]
    unfold detectGitChanges
    cases hrep : alookup src.config.path env.repos with
    | none => rfl
    | some repo =>
      dsimp only
      have hlast : alookup src.name (saveCurrentState md5 env cfg prior).git_commit_hashes
          = gitHeadHash env src :=
        alookup_getCurrentGitCommits env src hg cfg hsrc hnames [] rfl
      rw [hlast]
      have hhh : gitHeadHash env src = repo.commits.head?.map (·.hexsha) := by
        unfold gitHeadHash; rw [hrep]
      rw [hhh]
      cases hcs : repo.commits with
      | nil => simp [commitsInRange, hcs]
      | cons c cs =>
        have hc0 : c.hexsha ≠ "" :=
          hhex (src.config.path, repo) (alookup_mem _ _ _ hrep) c
            (by rw [hcs]; exact List.mem_cons_self _ _)
        simp [commitsInRange, hcs, hc0]
  · rw [if_neg hg]
    by_cases hl : src.type = "local_files"
    · rw [if_pos hl]
      unfold detectFileChanges
      rw [List.flatMap_eq_nil_iff]
      intro pat hpat
      rw [List.filterMap_eq_nil_iff]
      intro f hf
      have hfmem : f ∈ env.files := List.mem_of_mem_filter hf
      have hmatch : globMatch pat f.path = true := (List.mem_filter.mp hf).2
      have hv : ∀ g ∈ env.files, g.path = f.path → md5 g.content = md5 f.content := by
        intro g hg' hpeq
        have hgf : g = f := List.inj_on_of_nodup_map hpaths hg' hfmem hpeq
        rw [hgf]
      have hcond : (cfg.any fun s => s.type == "local_files" &&
          s.config.paths.any fun q =>
            globMatch q f.path && env.files.any fun g => g.path == f.path) = true := by
        rw [List.any_eq_true]
        refine ⟨src, hsrc, ?_⟩
        rw [Bool.and_eq_true]
        refine ⟨by simp [hl], ?_⟩
        rw [List.any_eq_true]
        refine ⟨pat, hpat, ?_⟩
        rw [Bool.and_eq_true]
        refine ⟨hmatch, ?_⟩
        rw [List.any_eq_true]
        exact ⟨f, hfmem, by simp⟩
      have hlook : alookup f.path (saveCurrentState md5 env cfg prior).file_checksums
          = some (md5 f.content) := by
        show alookup f.path (calcCurrentFileChecksums md5 env.files cfg) = _
        rw [alookup_calc md5 env.files f.path (md5 f.content) hv cfg, if_pos hcond]
      unfold classifyFileEntry
      rw [hlook]
      simp
    · rw [if_neg hl]

/-! ## Membership and shape lemmas for the adapters -/

theorem mem_detectFileChanges (md5 : List Char → String) (files : List FileEntry)
    (st : RunState) (src : DataSourceConfig) (c : ChangeDetection) :
    c ∈ detectFileChanges md5 files st src ↔
      ∃ pat ∈ src.config.paths, ∃ f ∈ files, globMatch pat f.path = true ∧
        classifyFileEntry md5 st src f = some c := by
  unfold detectFileChanges
  constructor
  · intro h
    obtain ⟨pat, hpat, hc⟩ := List.mem_flatMap.mp h
    obtain ⟨f, hf, hcl⟩ := List.mem_filterMap.mp hc
    obtain ⟨hfm, hglob⟩ := List.mem_filter.mp hf
    exact ⟨pat, hpat, f, hfm, hglob, hcl⟩
  · rintro ⟨pat, hpat, f, hfm, hglob, hcl⟩
    exact List.mem_flatMap.mpr ⟨pat, hpat,
      List.mem_filterMap.mpr ⟨f, List.mem_filter.mpr ⟨hfm, hglob⟩, hcl⟩⟩

theorem classifyFileEntry_shape (md5 : List Char → String) (st : RunState)
    (src : DataSourceConfig) (f : FileEntry) (c : ChangeDetection)
    (h : classifyFileEntry md5 st src f = some c) :
    c.source_name = src.name ∧ c.source_type = "file_modification" ∧
    metaPath c = some f.path ∧ metaChecksum c = some (md5 f.content) ∧
    c.content = f.content.take 5000 ∧
    c.evidence_id = "file_" ++ src.name ++ "_" ++ md5 f.content ++ "_" ++ lastSeg f.path ∧
    (c.change_type = "added" ∨ c.change_type = "modified") := by
  unfold classifyFileEntry at h
  cases hk : alookup f.path st.file_checksums with
  | none =>
    rw [hk] at h
    cases h
    refine ⟨rfl, rfl, ?_, ?_, rfl, rfl, Or.inl rfl⟩ <;> simp [metaPath, metaChecksum, alookup]
  | some old =>
    rw [hk] at h
    dsimp only at h
    by_cases he : old = md5 f.content
    · rw [if_pos he] at h; cases h
    · rw [if_neg he] at h
      cases h
      refine ⟨rfl, rfl, ?_, ?_, rfl, rfl, Or.inr rfl⟩ <;> simp [metaPath, metaChecksum, alookup]

theorem classifyFileEntry_state_machine (md5 : List Char → String) (st : RunState)
    (src : DataSourceConfig) (f : FileEntry) (c : ChangeDetection)
    (h : classifyFileEntry md5 st src f = some c) :
    (c.change_type = "added" ∧ alookup f.path st.file_checksums = none) ∨
    (c.change_type = "modified" ∧
      ∃ old, alookup f.path st.file_checksums = some old ∧ old ≠ md5 f.content) := by
  unfold classifyFileEntry at h
  cases hk : alookup f.path st.file_checksums with
  | none =>
    rw [hk] at h
    cases h
    exact Or.inl ⟨rfl, rfl⟩
  | some old =>
    rw [hk] at h
    dsimp only at h
    by_cases he : old = md5 f.content
    · rw [if_pos he] at h; cases h
    · rw [if_neg he] at h
      cases h
      exact Or.inr ⟨rfl, old, rfl, he⟩

theorem classifyFileEntry_unchanged (md5 : List Char → String) (st : RunState)
    (src : DataSourceConfig) (f : FileEntry)
    (h : alookup f.path st.file_checksums = some (md5 f.content)) :
    classifyFileEntry md5 st src f = none := by
  unfold classifyFileEntry
  rw [h]
  dsimp only
  rw [if_pos rfl]

theorem mem_detectGitChanges_shape (env : Env) (st : RunState)
    (src : DataSourceConfig) (c : ChangeDetection)
    (h : c ∈ detectGitChanges env st src) :
    c.change_type = "modified" ∧ c.source_name = src.name ∧
    c.source_type = "github_commit" ∧ c.content.length ≤ 5000 := by
  unfold detectGitChanges at h
  cases hrep : alookup src.config.path env.repos with
  | none => rw [hrep] at h; cases h
  | some repo =>
    rw [hrep] at h
    dsimp only at h
    obtain ⟨commit, _, hc⟩ := List.mem_flatMap.mp h
    obtain ⟨f, _, hcf⟩ := List.mem_map.mp hc
    subst hcf
    exact ⟨rfl, rfl, rfl, List.length_take_le _ _⟩

theorem mem_runSource_shape (md5 : List Char → String) (env : Env) (st : RunState)
    (src : DataSourceConfig) (c : ChangeDetection) (h : c ∈ runSource md5 env st src) :
    c.content.length ≤ 5000 ∧ (c.change_type = "added" ∨ c.change_type = "modified") := by
  unfold runSource at h
  by_cases hg : src.type = "github"
  · rw [if_pos hg] at h
    have := mem_detectGitChanges_shape env st src c h
    exact ⟨this.2.2.2, Or.inr this.1⟩
  · rw [if_neg hg] at h
    by_cases hl : src.type = "local_files"
    · rw [if_pos hl] at h
      obtain ⟨pat, _, f, _, _, hcl⟩ := (mem_detectFileChanges md5 env.files st src c).mp h
      have hs := classifyFileEntry_shape md5 st src f c hcl
      refine ⟨?_, hs.2.2.2.2.2.2⟩
      rw [hs.2.2.2.2.1]
      exact List.length_take_le _ _
    · rw [if_neg hl] at h
      cases h

theorem mem_detectAllChanges (md5 : List Char → String) (env : Env) (st : RunState)
    (cfg : List DataSourceConfig) (c : ChangeDetection) :
    c ∈ detectAllChanges md5 env st cfg ↔
      ∃ src ∈ cfg, src.enabled = true ∧ c ∈ runSource md5 env st src := by
  unfold detectAllChanges
  rw [List.mem_flatMap]
  constructor
  · rintro ⟨src, hsrc, hc⟩
    by_cases hen : src.enabled
    · rw [if_pos hen] at hc
      exact ⟨src, hsrc, hen, hc⟩
    · rw [if_neg hen] at hc
      cases hc
  · rintro ⟨src, hsrc, hen, hc⟩
    exact ⟨src, hsrc, by rw [if_pos hen]; exact hc⟩

/-! ## Claim theorems -/

/-- C2 witness: the idempotence theorem applied to a concrete world with
one markdown file and one single-commit repository. -/
theorem second_run_emits_nothing_witness :
    (wEnv.files.map FileEntry.path).Nodup ∧
    ((wCfg.filter fun s => s.type == "github").map (·.name)).Nodup ∧
    (∀ pr ∈ wEnv.repos, ∀ c ∈ pr.2.commits, c.hexsha ≠ "") ∧
    detectAllChanges idDigest wEnv (saveCurrentState idDigest wEnv wCfg []) wCfg = [] :=
  ⟨by decide, by decide, by decide,
    second_run_emits_nothing idDigest wEnv wCfg [] (by decide) (by decide) (by decide)⟩

/-- C1 (amended): per-item classification follows the section-4.4 state
machine for the filesystem adapter — an identifier with no stored
fingerprint yields an `added` record, a differing stored fingerprint
yields a `modified` record, and an equal stored fingerprint yields no
record at all — but the VCS adapter does not classify: every record it
emits carries `change_type = "modified"` regardless of stored state. -/
theorem file_state_machine_git_always_modified (md5 : List Char → String)
    (env : Env) (st : RunState) (fsrc gsrc : DataSourceConfig) :
    (∀ c ∈ detectFileChanges md5 env.files st fsrc,
        (c.change_type = "added" ∧ ∃ f ∈ env.files, metaPath c = some f.path ∧
            alookup f.path st.file_checksums = none) ∨
        (c.change_type = "modified" ∧ ∃ f ∈ env.files, metaPath c = some f.path ∧
            ∃ old, alookup f.path st.file_checksums = some old ∧ old ≠ md5 f.content)) ∧
    (∀ f ∈ env.files, alookup f.path st.file_checksums = some (md5 f.content) →
        classifyFileEntry md5 st fsrc f = none) ∧
    (∀ c ∈ detectGitChanges env st gsrc, c.change_type = "modified") := by
  refine ⟨?_, ?_, ?_⟩
  · intro c hc
    obtain ⟨pat, hpat, f, hf, hglob, hcl⟩ :=
      (mem_detectFileChanges md5 env.files st fsrc c).mp hc
    have hshape := classifyFileEntry_shape md5 st fsrc f c hcl
    rcases classifyFileEntry_state_machine md5 st fsrc f c hcl with
      ⟨ha, hn⟩ | ⟨hm, old, hold, hne⟩
    · exact Or.inl ⟨ha, f, hf, hshape.2.2.1, hn⟩
    · exact Or.inr ⟨hm, f, hf, hshape.2.2.1, old, hold, hne⟩
  · intro f _ hlk
    exact classifyFileEntry_unchanged md5 st fsrc f hlk
  · intro c hc
    exact (mem_detectGitChanges_shape env st gsrc c hc).1

/-- C1 counterexample: with completely empty prior state (no stored
fingerprint for any identifier), the VCS adapter's emission for a file
of a fresh commit is classified `modified`, not `added` as the claim's
state machine requires of an unseen identifier. -/
theorem vcs_unseen_classified_modified :
    emptyRunState.file_checksums = [] ∧ emptyRunState.git_commit_hashes = [] ∧
    (detectAllChanges idDigest wEnv emptyRunState [wGitSrc]).map (·.change_type) =
      ["modified"] := by
  refine ⟨rfl, rfl, ?_⟩
  decide

/-- C1 witness: a concrete `added` file emission and a concrete git
emission, classified by the amended theorem. -/
theorem file_state_machine_witness :
    (wFileChange ∈ detectFileChanges idDigest wEnv.files emptyRunState wFileSrc ∧
      ((wFileChange.change_type = "added" ∧ ∃ f ∈ wEnv.files,
          metaPath wFileChange = some f.path ∧
          alookup f.path emptyRunState.file_checksums = none) ∨
        (wFileChange.change_type = "modified" ∧ ∃ f ∈ wEnv.files,
          metaPath wFileChange = some f.path ∧
          ∃ old, alookup f.path emptyRunState.file_checksums = some old ∧
            old ≠ idDigest f.content))) ∧
    (wGitChange ∈ detectGitChanges wEnv emptyRunState wGitSrc ∧
      wGitChange.change_type = "modified") :=
  ⟨⟨by decide,
    (file_state_machine_git_always_modified idDigest wEnv emptyRunState wFileSrc
      wGitSrc).1 wFileChange (by decide)⟩,
   ⟨by decide,
    (file_state_machine_git_always_modified idDigest wEnv emptyRunState wFileSrc
      wGitSrc).2.2 wGitChange (by decide)⟩⟩

/-- C5: a `github` source whose configured repository path does not
exist contributes zero changes, and `detect_all_changes` still returns
exactly the changes of all the other sources (it is a total function of
the configuration, so no exception escapes). -/
theorem failing_source_isolated (md5 : List Char → String) (env : Env) (st : RunState)
    (xs ys : List DataSourceConfig) (bad : DataSourceConfig)
    (hT : bad.type = "github") (hpath : alookup bad.config.path env.repos = none) :
    detectAllChanges md5 env st (xs ++ bad :: ys) = detectAllChanges md5 env st (xs ++ ys) := by
  unfold detectAllChanges
  rw [List.flatMap_append, List.flatMap_cons, List.flatMap_append]
  congr 1
  have hrun : runSource md5 env st bad = [] := by
    unfold runSource
    rw [if_pos hT]
    unfold detectGitChanges
    rw [hpath]
  by_cases hen : bad.enabled <;> simp [hen, hrun]

/-- C5 witness: dropping a dead-path git source from a concrete
configuration leaves the detected list unchanged. -/
theorem failing_source_isolated_witness :
    badGitSrc.type = "github" ∧ alookup badGitSrc.config.path wEnv.repos = none ∧
    detectAllChanges idDigest wEnv emptyRunState [wFileSrc, badGitSrc] =
      detectAllChanges idDigest wEnv emptyRunState [wFileSrc] :=
  ⟨rfl, by decide,
    failing_source_isolated idDigest wEnv emptyRunState [wFileSrc] [] badGitSrc rfl
      (by decide)⟩

/-- C7: every record emitted by any adapter carries a content excerpt of
at most 5000 characters (`content[:5000]` in both adapters). -/
theorem content_excerpt_bounded (md5 : List Char → String) (env : Env)
    (st : RunState) (cfg : List DataSourceConfig) :
    ∀ c ∈ detectAllChanges md5 env st cfg, c.content.length ≤ 5000 := by
  intro c hc
  obtain ⟨src, _, _, hcr⟩ := (mem_detectAllChanges md5 env st cfg c).mp hc
  exact (mem_runSource_shape md5 env st src c hcr).1

/-- C7 witness: the bound evaluated on a concrete emitted record. -/
theorem content_excerpt_bounded_witness :
    wFileChange ∈ detectAllChanges idDigest wEnv emptyRunState wCfg ∧
    wFileChange.content.length ≤ 5000 :=
  ⟨by decide,
    content_excerpt_bounded idDigest wEnv emptyRunState wCfg wFileChange (by decide)⟩

/-- C8: no operation of the detector ever emits a `deleted` record —
every record of `detect_all_changes` is `added` or `modified`. -/
theorem no_deleted_records (md5 : List Char → String) (env : Env)
    (st : RunState) (cfg : List DataSourceConfig) :
    ∀ c ∈ detectAllChanges md5 env st cfg,
      c.change_type ≠ "deleted" ∧
      (c.change_type = "added" ∨ c.change_type = "modified") := by
  intro c hc
  obtain ⟨src, _, _, hcr⟩ := (mem_detectAllChanges md5 env st cfg c).mp hc
  have h := (mem_runSource_shape md5 env st src c hcr).2
  refine ⟨?_, h⟩
  rcases h with h | h <;> rw [h] <;> decide

/-- C8 witness: the invariant evaluated on a concrete git record. -/
theorem no_deleted_records_witness :
    wGitChange ∈ detectAllChanges idDigest wEnv emptyRunState wCfg ∧
    wGitChange.change_type ≠ "deleted" ∧
    (wGitChange.change_type = "added" ∨ wGitChange.change_type = "modified") :=
  ⟨by decide,
    no_deleted_records idDigest wEnv emptyRunState wCfg wGitChange (by decide)⟩

/-- C9: a persisted state file that exists but does not parse makes the
run fail with the JSON decode error before any adapter executes (the
constructor loads the state before `detect_all_changes` can run), and
the malformed state is not replaced by an empty one. -/
theorem malformed_state_aborts (md5 : List Char → String) (env : Env)
    (cfg : List DataSourceConfig) :
    mainRun md5 env cfg StateFile.malformed = .error .decodeError := rfl

/-- C10: when `detect_all_changes` returns no changes, `main` returns
before `save_current_state`, leaving the persisted state file exactly as
it was. -/
theorem zero_changes_leave_state_untouched (md5 : List Char → String) (env : Env)
    (cfg : List DataSourceConfig) (sf : StateFile) (st : RunState)
    (hload : loadLastRunState sf = .ok st)
    (hempty : detectAllChanges md5 env st cfg = []) :
    mainRun md5 env cfg sf = .ok (none, sf) := by
  unfold mainRun
  rw [hload]
  dsimp only
  rw [hempty]
  rfl

/-- C10 witness: a run with an absent state file and an empty
configuration detects nothing and hands the state file back unchanged. -/
theorem zero_changes_leave_state_untouched_witness :
    loadLastRunState .absent = .ok emptyRunState ∧
    detectAllChanges idDigest wEnv emptyRunState [] = [] ∧
    mainRun idDigest wEnv [] .absent = .ok (none, .absent) :=
  ⟨rfl, rfl, zero_changes_leave_state_untouched idDigest wEnv [] .absent emptyRunState rfl rfl⟩

/-! ## Counting emitted filesystem records -/

theorem classifyFileEntry_emits (md5 : List Char → String) (st : RunState)
    (src : DataSourceConfig) (f : FileEntry)
    (h : alookup f.path st.file_checksums ≠ some (md5 f.content)) :
    classifyFileEntry md5 st src f ≠ none := by
  unfold classifyFileEntry
  cases hk : alookup f.path st.file_checksums with
  | none => simp
  | some old =>
    dsimp only
    rw [if_neg (fun he => h (by rw [hk, he]))]
    simp

theorem countP_filterMap_classify (md5 : List Char → String) (st : RunState)
    (src : DataSourceConfig) (L : List FileEntry) (p : String)
    (hemit : ∀ f ∈ L, f.path = p → classifyFileEntry md5 st src f ≠ none) :
    ((L.filterMap (classifyFileEntry md5 st src)).countP
        fun c => c.source_type == "file_modification" && metaPath c == some p)
      = L.countP fun f => f.path == p := by
  induction L with
  | nil => rfl
  | cons f fs ih =>
    have hemit' : ∀ g ∈ fs, g.path = p → classifyFileEntry md5 st src g ≠ none :=
      fun g hg => hemit g (List.mem_cons_of_mem _ hg)
    rw [List.filterMap_cons]
    cases hcf : classifyFileEntry md5 st src f with
    | none =>
      have hne : f.path ≠ p := fun hp => hemit f (List.mem_cons_self _ _) hp hcf
      rw [List.countP_cons, ih hemit']
      simp [hne]
    | some c =>
      have hshape := classifyFileEntry_shape md5 st src f c hcf
      rw [List.countP_cons, List.countP_cons, ih hemit']
      have hpred : (c.source_type == "file_modification" && (metaPath c == some p))
          = (f.path == p) := by
        rw [hshape.2.1, hshape.2.2.1]
        simp
      rw [hpred]

theorem countP_filter_glob (files : List FileEntry) (pat p : String) :
    ((files.filter fun f => globMatch pat f.path).countP fun f => f.path == p)
      = if globMatch pat p then files.countP fun f => f.path == p else 0 := by
  induction files with
  | nil => simp
  | cons f fs ih =>
    by_cases hp : f.path = p
    · subst hp
      by_cases hg : globMatch pat f.path
      · simp [List.filter_cons, hg, List.countP_cons, ih]
      · simp [List.filter_cons, hg, List.countP_cons, ih]
    · have hpb : (f.path == p) = false := by simp [hp]
      by_cases hg : globMatch pat f.path <;>
        simp [List.filter_cons, hg, List.countP_cons, ih, hpb]

theorem countP_flatMap_pats (md5 : List Char → String) (st : RunState)
    (src : DataSourceConfig) (files : List FileEntry) (p : String)
    (hemit : ∀ f ∈ files, f.path = p → classifyFileEntry md5 st src f ≠ none)
    (P : List String) :
    ((P.flatMap fun pat => (files.filter fun f => globMatch pat f.path).filterMap
        (classifyFileEntry md5 st src)).countP
      fun c => c.source_type == "file_modification" && metaPath c == some p)
      = (P.countP fun pat => globMatch pat p) * (files.countP fun f => f.path == p) := by
  induction P with
  | nil => simp
  | cons pat P' ih =>
    rw [List.flatMap_cons, List.countP_append, ih]
    have hemitf : ∀ f ∈ files.filter fun g => globMatch pat g.path, f.path = p →
        classifyFileEntry md5 st src f ≠ none :=
      fun f hf => hemit f (List.mem_of_mem_filter hf)
    rw [countP_filterMap_classify md5 st src _ p hemitf, countP_filter_glob,
      List.countP_cons]
    by_cases hg : globMatch pat p = true
    · simp only [hg, if_true, if_pos]
      ring
    · simp [hg]

theorem countFileRecords_gitChanges (env : Env) (st : RunState)
    (src : DataSourceConfig) (p : String) :
    countFileRecords p (detectGitChanges env st src) = 0 := by
  unfold countFileRecords
  rw [List.countP_eq_zero]
  intro c hc
  have hty := (mem_detectGitChanges_shape env st src c hc).2.2.1
  simp [hty, metaPath]

theorem countFileRecords_runSource (md5 : List Char → String) (env : Env)
    (st : RunState) (src : DataSourceConfig) (p : String)
    (hemit : ∀ f ∈ env.files, f.path = p → classifyFileEntry md5 st src f ≠ none) :
    countFileRecords p (runSource md5 env st src) =
      if src.type == "local_files" then
        (src.config.paths.countP fun pat => globMatch pat p) *
          (env.files.countP fun f => f.path == p)
      else 0 := by
  unfold runSource
  by_cases hg : src.type = "github"
  · rw [if_pos hg, countFileRecords_gitChanges]
    have hT : (src.type == "local_files") = false := by simp [hg]
    rw [hT, if_neg (by simp)]
  · rw [if_neg hg]
    by_cases hl : src.type = "local_files"
    · rw [if_pos hl]
      unfold countFileRecords detectFileChanges
      rw [countP_flatMap_pats md5 st src env.files p hemit]
      have hT : (src.type == "local_files") = true := by simp [hl]
      rw [hT, if_pos rfl]
    · rw [if_neg hl]
      have hT : (src.type == "local_files") = false := by simp [hl]
      rw [hT, if_neg (by simp)]
      rfl

theorem countFileRecords_detectAllChanges (md5 : List Char → String) (env : Env)
    (st : RunState) (cfg : List DataSourceConfig) (p : String)
    (hemit : ∀ src ∈ cfg, ∀ f ∈ env.files, f.path = p →
        classifyFileEntry md5 st src f ≠ none) :
    countFileRecords p (detectAllChanges md5 env st cfg) =
      (cfg.map fun src =>
        if src.enabled && (src.type == "local_files") then
          (src.config.paths.countP fun pat => globMatch pat p) *
            (env.files.countP fun f => f.path == p)
        else 0).sum := by
  induction cfg with
  | nil => rfl
  | cons src rest ih =>
    have hemit' : ∀ s ∈ rest, ∀ f ∈ env.files, f.path = p →
        classifyFileEntry md5 st s f ≠ none :=
      fun s hs => hemit s (List.mem_cons_of_mem _ hs)
    unfold detectAllChanges at ih ⊢
    rw [List.flatMap_cons, List.map_cons, List.sum_cons]
    unfold countFileRecords at ih ⊢
    rw [List.countP_append]
    by_cases hen : src.enabled
    · rw [if_pos hen]
      have hc := countFileRecords_runSource md5 env st src p
        (hemit src (List.mem_cons_self _ _))
      unfold countFileRecords at hc
      rw [hc, ih hemit']
      simp [hen, Nat.add_comm]
    · rw [if_neg hen, ih hemit']
      have henb : (src.enabled && (src.type == "local_files")) = false := by
        simp [hen]
      rw [henb, if_neg (by simp)]
      simp

/-! ## Evidence identifier shape for git records -/

theorem mem_detectGitChanges_evidence (env : Env) (st : RunState)
    (src : DataSourceConfig) (c : ChangeDetection)
    (h : c ∈ detectGitChanges env st src) :
    ∃ hx p, alookup "commit_hash" c.metadata = some hx ∧ metaPath c = some p ∧
      c.evidence_id = "git_" ++ src.name ++ "_" ++ hx ++ "_" ++ p := by
  unfold detectGitChanges at h
  cases hrep : alookup src.config.path env.repos with
  | none => rw [hrep] at h; cases h
  | some repo =>
    rw [hrep] at h
    dsimp only at h
    obtain ⟨commit, _, hc⟩ := List.mem_flatMap.mp h
    obtain ⟨f, _, hcf⟩ := List.mem_map.mp hc
    subst hcf
    exact ⟨commit.hexsha, f.1, by simp [alookup], by simp [metaPath, alookup], rfl⟩

/-- C3 (amended): with empty prior state every filesystem record is
classified `added`, and a file with path `p` appears once per matching
pair of an enabled filesystem source and one of its configured patterns
(times its number of snapshot entries) — so `exactly once` holds only
when exactly one pattern of exactly one enabled source matches it, not
in general. -/
theorem first_run_all_added_once_per_match (md5 : List Char → String) (env : Env)
    (cfg : List DataSourceConfig) (p : String) :
    (∀ c ∈ detectAllChanges md5 env emptyRunState cfg,
        c.source_type = "file_modification" → c.change_type = "added") ∧
    countFileRecords p (detectAllChanges md5 env emptyRunState cfg) =
      (cfg.map fun src =>
        if src.enabled && (src.type == "local_files") then
          (src.config.paths.countP fun pat => globMatch pat p) *
            (env.files.countP fun f => f.path == p)
        else 0).sum := by
  constructor
  · intro c hc hft
    obtain ⟨src, _, _, hcr⟩ := (mem_detectAllChanges md5 env emptyRunState cfg c).mp hc
    unfold runSource at hcr
    by_cases hg : src.type = "github"
    · rw [if_pos hg] at hcr
      have hty := (mem_detectGitChanges_shape env emptyRunState src c hcr).2.2.1
      rw [hty] at hft
      exact absurd hft (by decide)
    · rw [if_neg hg] at hcr
      by_cases hl : src.type = "local_files"
      · rw [if_pos hl] at hcr
        obtain ⟨pat, _, f, _, _, hcl⟩ :=
          (mem_detectFileChanges md5 env.files emptyRunState src c).mp hcr
        rcases classifyFileEntry_state_machine md5 emptyRunState src f c hcl with
          ⟨ha, _⟩ | ⟨_, old, hold, _⟩
        · exact ha
        · exact Option.noConfusion hold
      · rw [if_neg hl] at hcr
        cases hcr
  · apply countFileRecords_detectAllChanges
    intro src _ f _ _
    exact classifyFileEntry_emits md5 emptyRunState src f fun h => Option.noConfusion h

/-- C3 counterexample: a file matching both a literal pattern and a
wildcard pattern of the same enabled source is emitted twice on a first
run, not exactly once. -/
theorem first_run_file_added_twice :
    countFileRecords "a.md" (detectAllChanges idDigest c3Env emptyRunState [c3Src]) = 2 ∧
    (detectAllChanges idDigest c3Env emptyRunState [c3Src]).map (·.change_type) =
      ["added", "added"] := by
  decide

/-- C3 witness: in a configuration where each file matches exactly one
pattern of one enabled source, the count formula evaluates to one. -/
theorem first_run_all_added_witness :
    countFileRecords "a.md" (detectAllChanges idDigest wEnv emptyRunState wCfg) =
      (wCfg.map fun src =>
        if src.enabled && (src.type == "local_files") then
          (src.config.paths.countP fun pat => globMatch pat "a.md") *
            (wEnv.files.countP fun f => f.path == "a.md")
        else 0).sum ∧
    countFileRecords "a.md" (detectAllChanges idDigest wEnv emptyRunState wCfg) = 1 :=
  ⟨(first_run_all_added_once_per_match idDigest wEnv wCfg "a.md").2, by decide⟩

/-- C4 (amended): when the store remembers fingerprint `F1` for path `p`
and the snapshot now digests to `F2 ≠ F1`, every emitted record for `p`
is `modified`, one record is emitted per matching (enabled source,
pattern) pair — exactly one only when a single pattern of a single
enabled source matches — and the state saved after the run maps `p` to
`F2`. -/
theorem modified_file_detected (md5 : List Char → String) (env : Env)
    (cfg : List DataSourceConfig) (st : RunState) (p F1 F2 : String)
    (hold : alookup p st.file_checksums = some F1)
    (hF2 : ∀ f ∈ env.files, f.path = p → md5 f.content = F2)
    (hne : F2 ≠ F1)
    (hmem : ∃ f ∈ env.files, f.path = p)
    (hmatch : ∃ src ∈ cfg, src.type = "local_files" ∧
      ∃ pat ∈ src.config.paths, globMatch pat p = true) :
    (∀ c ∈ detectAllChanges md5 env st cfg,
        c.source_type = "file_modification" → metaPath c = some p →
        c.change_type = "modified") ∧
    countFileRecords p (detectAllChanges md5 env st cfg) =
      (cfg.map fun src =>
        if src.enabled && (src.type == "local_files") then
          (src.config.paths.countP fun pat => globMatch pat p) *
            (env.files.countP fun f => f.path == p)
        else 0).sum ∧
    alookup p (saveCurrentState md5 env cfg
        (detectAllChanges md5 env st cfg)).file_checksums = some F2 := by
  refine ⟨?_, ?_, ?_⟩
  · intro c hc hft hmp
    obtain ⟨src, _, _, hcr⟩ := (mem_detectAllChanges md5 env st cfg c).mp hc
    unfold runSource at hcr
    by_cases hg : src.type = "github"
    · rw [if_pos hg] at hcr
      have hty := (mem_detectGitChanges_shape env st src c hcr).2.2.1
      rw [hty] at hft
      exact absurd hft (by decide)
    · rw [if_neg hg] at hcr
      by_cases hl : src.type = "local_files"
      · rw [if_pos hl] at hcr
        obtain ⟨pat, _, f, hf, _, hcl⟩ :=
          (mem_detectFileChanges md5 env.files st src c).mp hcr
        have hshape := classifyFileEntry_shape md5 st src f c hcl
        have hfp : f.path = p := by
          have := hshape.2.2.1
          rw [hmp] at this
          exact (Option.some.inj this).symm
        rcases classifyFileEntry_state_machine md5 st src f c hcl with
          ⟨_, hn⟩ | ⟨hm, _⟩
        · rw [hfp] at hn
          rw [hold] at hn
          cases hn
        · exact hm
      · rw [if_neg hl] at hcr
        cases hcr
  · apply countFileRecords_detectAllChanges
    intro src _ f hf hfp
    apply classifyFileEntry_emits
    rw [hfp, hold, hF2 f hf hfp]
    intro h
    exact hne (Option.some.inj h).symm
  · show alookup p (calcCurrentFileChecksums md5 env.files cfg) = some F2
    rw [alookup_calc md5 env.files p F2 hF2 cfg]
    obtain ⟨f, hf, hfp⟩ := hmem
    obtain ⟨src, hsrc, hl, pat, hpat, hglob⟩ := hmatch
    rw [if_pos ?_]
    rw [List.any_eq_true]
    refine ⟨src, hsrc, ?_⟩
    rw [Bool.and_eq_true]
    refine ⟨by simp [hl], ?_⟩
    rw [List.any_eq_true]
    refine ⟨pat, hpat, ?_⟩
    rw [Bool.and_eq_true]
    refine ⟨hglob, ?_⟩
    rw [List.any_eq_true]
    exact ⟨f, hf, by simp [hfp]⟩

/-- C4 counterexample: a previously recorded file whose content changed
is emitted twice — once per matching pattern — not exactly once. -/
theorem modified_file_emitted_twice :
    countFileRecords "b.md" (detectAllChanges idDigest c4Env c4St [c4Src]) = 2 ∧
    (detectAllChanges idDigest c4Env c4St [c4Src]).map (·.change_type) =
      ["modified", "modified"] ∧
    alookup "b.md" c4St.file_checksums = some "OLD" ∧ idDigest ['n'] ≠ "OLD" := by
  decide

/-- C4 witness: a single-pattern configuration where the amended claim
gives exactly one `modified` record and the saved store holds the new
fingerprint. -/
theorem modified_file_detected_witness :
    countFileRecords "b.md" (detectAllChanges idDigest c4Env c4St [c4wSrc]) = 1 ∧
    alookup "b.md" (saveCurrentState idDigest c4Env [c4wSrc]
        (detectAllChanges idDigest c4Env c4St [c4wSrc])).file_checksums = some "n" :=
  ⟨by decide,
    (modified_file_detected idDigest c4Env [c4wSrc] c4St "b.md" "OLD" "n"
      (by decide) (by decide) (by decide)
      ⟨⟨"b.md", ['n'], 0⟩, by decide, rfl⟩
      ⟨c4wSrc, by decide, rfl, "b.md", by decide, by decide⟩).2.2⟩

/-- C6 (amended): `evidence_id` is a deterministic function of the
record's components — for filesystem records exactly
`file_{source}_{checksum}_{basename}`, for VCS records exactly
`git_{source}_{commit}_{path}` — but it is not unique across a run:
the filesystem identifier uses only the basename of the path, so two
files with equal content and equal basename in different directories
collide (see the counterexample). -/
theorem evidence_id_deterministic (md5 : List Char → String) (env : Env)
    (st : RunState) (src : DataSourceConfig) :
    (∀ c ∈ detectFileChanges md5 env.files st src, ∃ f ∈ env.files,
        metaPath c = some f.path ∧ metaChecksum c = some (md5 f.content) ∧
        c.evidence_id =
          "file_" ++ src.name ++ "_" ++ md5 f.content ++ "_" ++ lastSeg f.path) ∧
    (∀ c ∈ detectGitChanges env st src, ∃ hx p,
        alookup "commit_hash" c.metadata = some hx ∧ metaPath c = some p ∧
        c.evidence_id = "git_" ++ src.name ++ "_" ++ hx ++ "_" ++ p) := by
  constructor
  · intro c hc
    obtain ⟨pat, _, f, hf, _, hcl⟩ :=
      (mem_detectFileChanges md5 env.files st src c).mp hc
    have hshape := classifyFileEntry_shape md5 st src f c hcl
    exact ⟨f, hf, hshape.2.2.1, hshape.2.2.2.1, hshape.2.2.2.2.2.1⟩
  · intro c hc
    exact mem_detectGitChanges_evidence env st src c hc

/-- C6 counterexample: two distinct emitted changes — different item
identifiers `docs/a.md` and `notes/a.md` — share the same
`evidence_id`, because the identifier embeds only the basename. -/
theorem evidence_id_not_unique :
    (detectAllChanges idDigest c6Env emptyRunState [c6Src]).map (·.evidence_id) =
      ["file_S_h_a.md", "file_S_h_a.md"] ∧
    (detectAllChanges idDigest c6Env emptyRunState [c6Src]).map metaPath =
      [some "docs/a.md", some "notes/a.md"] := by
  decide

/-- C6 witness: the deterministic shape evaluated on a concrete
filesystem record. -/
theorem evidence_id_deterministic_witness :
    wFileChange ∈ detectFileChanges idDigest wEnv.files emptyRunState wFileSrc ∧
    (∃ f ∈ wEnv.files, metaPath wFileChange = some f.path ∧
      metaChecksum wFileChange = some (idDigest f.content) ∧
      wFileChange.evidence_id =
        "file_" ++ wFileSrc.name ++ "_" ++ idDigest f.content ++ "_" ++ lastSeg f.path) :=
  ⟨by decide,
    (evidence_id_deterministic idDigest wEnv emptyRunState wFileSrc).1 wFileChange
      (by decide)⟩

end GuruTruth
